import Mathlib

/-!
Shallow embedding of the feed-forward neural-network engine
(`src/node.cpp`, `src/layer.cpp`, `src/neural_network.cpp`).

Modelling conventions:
* C++ `float` scalars are modelled as exact rationals `ℚ`; the float
  literals `0.01f`, `0.001f` are modelled by their decimal values
  `1/100`, `1/1000`.
* The transcendental functions (`exp` inside the output sigmoid, `log`
  inside the loss) are modelled as explicit function parameters
  (`sig : ℚ → ℚ`, `logf`), since every claim under scrutiny is about
  the surrounding structure, not about the analytic functions; the
  loss formula itself is additionally stated over `ℝ` with `Real.log`
  where the claim requires it.
* C++ exceptions are modelled with `Except String`; a function that
  throws before mutating anything returns `.error` and the caller
  keeps its previous state.
* The mersenne-twister random draws used for initial weights/biases
  are modelled as explicit value streams passed in as parameters
  (the repository's own design notes ask for an injectable generator).
* `shared_ptr<Node>` identity: every node is owned by exactly one
  layer and all nodes are distinct allocations, so an edge's
  source/target pointers are modelled as positional indices into the
  adjacent layers' node lists; the pointer comparison
  `edge->sourceNode == node` becomes an index comparison.
-/

namespace NNet

/-- Scalar computational unit (`nodes::Node`): `value`, `bias`, `delta`.
The `biasIndex`/`paramIndex` fields of the C++ struct are never read or
written by any code in the repository and are omitted. -/
structure Node where
  value : ℚ
  bias : ℚ
  delta : ℚ
deriving DecidableEq

instance : Inhabited Node := ⟨⟨0, 0, 0⟩⟩

/-- Directed weighted connection (`nodes::Edge`); `source` and `target`
are indices into the owning layer's node list and the next layer's node
list respectively. -/
structure Edge where
  source : ℕ
  target : ℕ
  weight : ℚ
deriving DecidableEq

instance : Inhabited Edge := ⟨⟨0, 0, 0⟩⟩

/-- `Node::relu` : `value = value > 0 ? value : 0.01f * value`. -/
def relu (x : ℚ) : ℚ := if x > 0 then x else (1 / 100) * x

/-- `Node::reluDerivative` : `value > 0 ? 1.0f : 0.01f`. -/
def reluDerivative (x : ℚ) : ℚ := if x > 0 then 1 else 1 / 100

/-- `Node::sigmoidDerivative` : `s * (1 - s)` at the stored value
(present in the source, unused by the training path). -/
def sigmoidDerivative (x : ℚ) : ℚ := x * (1 - x)

/-- Update the `i`-th element of a list in place. -/
def updAt {α : Type} : List α → ℕ → (α → α) → List α
  | [], _, _ => []
  | x :: xs, 0, f => f x :: xs
  | x :: xs, i + 1, f => x :: updAt xs i f

/-- Edge-by-edge forward accumulation shared by `InputLayer::forward`
and `HiddenLayer::forward`:
`edge->targetNode->value += edge->sourceNode->value * edge->weight`. -/
def propagate (src : List Node) (edges : List Edge) (tgt : List Node) : List Node :=
  edges.foldl
    (fun acc e =>
      updAt acc e.target (fun n => { n with value := n.value + (src.getD e.source default).value * e.weight }))
    tgt

/-- `Layer::resetValues` on a node list: every `value` becomes `0`;
`bias` and `delta` are untouched (`Node::reset`). -/
def clearValues (ns : List Node) : List Node := ns.map fun n => { n with value := 0 }

/-- `InputLayer` : nodes plus outgoing edges. -/
structure InputLayer where
  nodes : List Node
  edges : List Edge
deriving DecidableEq

/-- `HiddenLayer` : nodes plus outgoing edges. -/
structure HiddenLayer where
  nodes : List Node
  edges : List Edge
deriving DecidableEq

/-- `OutputLayer` : nodes only (terminal layer owns no edges). -/
structure OutputLayer where
  nodes : List Node
deriving DecidableEq

instance : Inhabited InputLayer := ⟨⟨[], []⟩⟩
instance : Inhabited HiddenLayer := ⟨⟨[], []⟩⟩
instance : Inhabited OutputLayer := ⟨⟨[]⟩⟩

/-- `InputLayer::initializeNodes` : `nodeCount` nodes built by the
one-argument `Node` constructor (value 0, bias defaulted to 0, delta 0). -/
def initializeInputNodes (nodeCount : ℕ) : List Node :=
  (List.range nodeCount).map fun _ => ⟨0, 0, 0⟩

/-- `Layer::initializeNodes` (hidden/output variant): `nodeCount` nodes
with value 0 and a bias drawn from the random stream `b`. -/
def initializeBiasedNodes (b : ℕ → ℚ) (nodeCount : ℕ) : List Node :=
  (List.range nodeCount).map fun i => ⟨0, b i, 0⟩

/-- `initializeEdges` body shared by `InputLayer` and `HiddenLayer`:
clear, then one freshly weighted edge per (source node, target node)
pair, source-major order. -/
def initializeEdges (src tgt : List Node) (w : ℕ → ℕ → ℚ) : List Edge :=
  (List.range src.length).flatMap fun i =>
    (List.range tgt.length).map fun j => ⟨i, j, w i j⟩

/-- `InputLayer::attachLayer` (which just calls `initializeEdges`):
fails on an absent/empty next layer, otherwise REPLACES the edge set. -/
def InputLayer.attachLayer (l : InputLayer) (next : List Node) (w : ℕ → ℕ → ℚ) :
    Except String InputLayer :=
  if next.isEmpty then .error "Cannot attach to null or empty layer"
  else .ok { l with edges := initializeEdges l.nodes next w }

/-- `HiddenLayer::attachLayer` (same body as the input-layer variant). -/
def HiddenLayer.attachLayer (l : HiddenLayer) (next : List Node) (w : ℕ → ℕ → ℚ) :
    Except String HiddenLayer :=
  if next.isEmpty then .error "Cannot attach to null or empty layer"
  else .ok { l with edges := initializeEdges l.nodes next w }

/-- Positionally overwrite node values (the loop body of
`InputLayer::setInputValues`). -/
def setVals : List Node → List ℚ → List Node
  | [], _ => []
  | ns, [] => ns
  | n :: ns, v :: vs => { n with value := v } :: setVals ns vs

/-- `InputLayer::setInputValues` : length check, then overwrite values. -/
def InputLayer.setInputValues (l : InputLayer) (values : List ℚ) :
    Except String InputLayer :=
  if values.length ≠ l.nodes.length then .error "Input size doesn't match layer size"
  else .ok { l with nodes := setVals l.nodes values }

/-- `HiddenLayer::processNodes` : `addBias` then leaky `relu`, per node. -/
def HiddenLayer.processNodes (l : HiddenLayer) : HiddenLayer :=
  { l with nodes := l.nodes.map fun n => { n with value := relu (n.value + n.bias) } }

/-- `OutputLayer::processNodes` : `addBias` then `sigmoid`; the
logistic function is the parameter `sig`. -/
def OutputLayer.processNodes (l : OutputLayer) (sig : ℚ → ℚ) : OutputLayer :=
  ⟨l.nodes.map fun n => { n with value := sig (n.value + n.bias) }⟩

/-- `OutputLayer::getOutput` : process all nodes, return their values
(and the mutated layer, made explicit by state passing). -/
def OutputLayer.getOutput (l : OutputLayer) (sig : ℚ → ℚ) : List ℚ × OutputLayer :=
  let l' := l.processNodes sig
  (l'.nodes.map (·.value), l')

/-- Hidden-layer chain of `forward()` calls: each layer processes its
own nodes and then accumulates into the next layer's nodes (the last
one accumulates into the output nodes, passed as `out`). -/
def forwardHiddensGo (cur : HiddenLayer) : List HiddenLayer → List Node →
    List HiddenLayer × List Node
  | [], out =>
      let cur' := cur.processNodes
      ([cur'], propagate cur'.nodes cur'.edges out)
  | h2 :: rest, out =>
      let cur' := cur.processNodes
      let h2' : HiddenLayer := { h2 with nodes := propagate cur'.nodes cur'.edges h2.nodes }
      let (rest', out') := forwardHiddensGo h2' rest out
      (cur' :: rest', out')

/-- Run `forward()` over the whole hidden chain. -/
def forwardHiddens : List HiddenLayer → List Node → List HiddenLayer × List Node
  | [], out => ([], out)
  | h :: rest, out => forwardHiddensGo h rest out

/-- The network: one input layer, ordered hidden layers, one output
layer.  The diagnostics fields (`deltaHistory`, `trackDeltas`,
`currentEpoch`, `currentSample`) never influence training (tracking is
constructed disabled and `train` never enables it) and are omitted. -/
structure NeuralNetwork where
  inputLayer : InputLayer
  hiddenLayers : List HiddenLayer
  outputLayer : OutputLayer
deriving DecidableEq

/-- `NeuralNetwork::resetNetwork` : every node value in every layer is
set to 0; biases, weights and deltas are untouched. -/
def NeuralNetwork.resetNetwork (net : NeuralNetwork) : NeuralNetwork :=
  { inputLayer := { net.inputLayer with nodes := clearValues net.inputLayer.nodes },
    hiddenLayers := net.hiddenLayers.map fun h => { h with nodes := clearValues h.nodes },
    outputLayer := ⟨clearValues net.outputLayer.nodes⟩ }

/-- Body of `NeuralNetwork::forward` after the initial `resetNetwork()`
call: load inputs, input-layer propagation, hidden chain, output
activation.  (The null-layer `runtime_error` branch is unreachable in
the embedding: both layers always exist on a constructed network.) -/
def NeuralNetwork.forwardAfterReset (sig : ℚ → ℚ) (net : NeuralNetwork) (inputs : List ℚ) :
    Except String (List ℚ × NeuralNetwork) :=
  match net.inputLayer.setInputValues inputs with
  | .error e => .error e
  | .ok il =>
    match net.hiddenLayers with
    | [] =>
        let outNodes := propagate il.nodes il.edges net.outputLayer.nodes
        let go := OutputLayer.getOutput ⟨outNodes⟩ sig
        .ok (go.1, ⟨il, [], go.2⟩)
    | h :: rest =>
        let h0 : HiddenLayer := { h with nodes := propagate il.nodes il.edges h.nodes }
        let fh := forwardHiddens (h0 :: rest) net.outputLayer.nodes
        let go := OutputLayer.getOutput ⟨fh.2⟩ sig
        .ok (go.1, ⟨il, fh.1, go.2⟩)

/-- `NeuralNetwork::forward` : reset the whole network, then run the
pass. -/
def NeuralNetwork.forward (sig : ℚ → ℚ) (net : NeuralNetwork) (inputs : List ℚ) :
    Except String (List ℚ × NeuralNetwork) :=
  net.resetNetwork.forwardAfterReset sig inputs

/-- Accumulation loop of `NeuralNetwork::calculateLoss`, pairing
expected values with actual output values:
`totalLoss -= expected[i]*log(actual) + (1-expected[i])*log(1-actual)`.
The logarithm is the parameter `logf`. -/
def lossSum {α : Type} [Field α] (logf : α → α) : List α → List α → α
  | e :: es, a :: as => (-(e * logf a + (1 - e) * logf (1 - a))) + lossSum logf es as
  | _, _ => 0

/-- `NeuralNetwork::calculateLoss` : length check against the output
node count, then mean of the accumulated cross-entropy terms.  The
layer is only read, never written, so the embedding takes it as a pure
argument.  NOTE: the actual values are fed to `logf` exactly as stored
— the source contains no clamp. -/
def OutputLayer.calculateLoss {α : Type} [LinearOrderedField α] (logf : α → α)
    (l : OutputLayer) (expected : List α) : Except String α :=
  if expected.length ≠ l.nodes.length then
    .error "Expected output size doesn't match network output size"
  else
    .ok (lossSum logf expected (l.nodes.map fun n => (n.value : α)) / (expected.length : α))

/-- Clamp of an actual output value into `[1e-15, 1-1e-15]`, as the
specification demands before a logarithm is taken. -/
def clampUnit {α : Type} [LinearOrderedField α] (x : α) : α :=
  max (1 / 10 ^ 15) (min (1 - 1 / 10 ^ 15) x)

/-- Modelled from the spec: the clamping variant of `calculateLoss`
that §4.3 requires (clamp each actual value away from 0 and 1, then
take logarithms); this definition exists to be compared with the
unclamped `OutputLayer.calculateLoss` that the source actually
implements. -/
def OutputLayer.calculateLossClamped {α : Type} [LinearOrderedField α] (logf : α → α)
    (l : OutputLayer) (expected : List α) : Except String α :=
  if expected.length ≠ l.nodes.length then
    .error "Expected output size doesn't match network output size"
  else
    .ok (lossSum logf expected (l.nodes.map fun n => clampUnit (n.value : α)) /
      (expected.length : α))

/-- Scan of one layer's edge list performed by the backward pass for
the node at index `i`:
`if (edge->sourceNode == node) sum += edge->weight * edge->targetNode->delta`. -/
def outEdgeSum (edges : List Edge) (i : ℕ) (nextDeltas : List ℚ) : ℚ :=
  edges.foldl (fun s e => if e.source = i then s + e.weight * nextDeltas.getD e.target 0 else s) 0

/-- The delta list of a node list. -/
def layerDeltas (ns : List Node) : List ℚ := ns.map (·.delta)

/-- Output-delta loop of `backpropagate` :
`nodes[i]->delta = nodes[i]->value - expected[i]`. -/
def setOutputDeltas : List Node → List ℚ → List Node
  | [], _ => []
  | ns, [] => ns
  | n :: ns, e :: es => { n with delta := n.value - e } :: setOutputDeltas ns es

/-- Hidden-delta loop body: node `i` gets
`delta = (edge scan sum) * reluDerivative(value)`. -/
def setHiddenNodeDeltas (edges : List Edge) (nextDeltas : List ℚ) : ℕ → List Node → List Node
  | _, [] => []
  | i, n :: ns =>
      { n with delta := outEdgeSum edges i nextDeltas * reluDerivative n.value } ::
        setHiddenNodeDeltas edges nextDeltas (i + 1) ns

/-- Input-delta loop body: node `i` gets `delta = (edge scan sum)`,
with no activation derivative. -/
def setInputNodeDeltas (edges : List Edge) (nextDeltas : List ℚ) : ℕ → List Node → List Node
  | _, [] => []
  | i, n :: ns =>
      { n with delta := outEdgeSum edges i nextDeltas } ::
        setInputNodeDeltas edges nextDeltas (i + 1) ns

/-- Hidden layers processed strictly back to front
(`for (size_t l = hiddenLayers.size(); l-- > 0;)`): the returned list
is the updated chain, the returned delta list belongs to the first
hidden layer (or is `outDeltas` itself when there are none) and feeds
the input-layer loop. -/
def backHiddens : List HiddenLayer → List ℚ → List HiddenLayer × List ℚ
  | [], outDeltas => ([], outDeltas)
  | h :: rest, outDeltas =>
      let p := backHiddens rest outDeltas
      let h' : HiddenLayer := { h with nodes := setHiddenNodeDeltas h.edges p.2 0 h.nodes }
      (h' :: p.1, layerDeltas h'.nodes)

/-- `NeuralNetwork::updateLayer` edge loop:
`edge->weight -= learningRate * edge->sourceNode->value * edge->targetNode->delta`
(the target node lives in the NEXT layer, whose deltas are passed in). -/
def updateEdges (edges : List Edge) (src : List Node) (nextDeltas : List ℚ) (lr : ℚ) : List Edge :=
  edges.map fun e =>
    { e with weight := e.weight - lr * (src.getD e.source default).value * nextDeltas.getD e.target 0 }

/-- `NeuralNetwork::updateLayer` node loop:
`node->bias -= learningRate * node->delta` (run for EVERY layer kind,
including the input layer). -/
def updateBiases (ns : List Node) (lr : ℚ) : List Node :=
  ns.map fun n => { n with bias := n.bias - lr * n.delta }

/-- `updateLayer(shared_ptr<InputLayer>, float)` : edge weights, then
node biases. -/
def updateLayerInput (l : InputLayer) (nextDeltas : List ℚ) (lr : ℚ) : InputLayer :=
  { edges := updateEdges l.edges l.nodes nextDeltas lr, nodes := updateBiases l.nodes lr }

/-- `updateLayer(shared_ptr<HiddenLayer>, float)` : edge weights, then
node biases. -/
def updateLayerHidden (l : HiddenLayer) (nextDeltas : List ℚ) (lr : ℚ) : HiddenLayer :=
  { edges := updateEdges l.edges l.nodes nextDeltas lr, nodes := updateBiases l.nodes lr }

/-- `updateLayer(shared_ptr<OutputLayer>, float)` : node biases only. -/
def updateLayerOutput (l : OutputLayer) (lr : ℚ) : OutputLayer :=
  ⟨updateBiases l.nodes lr⟩

/-- Gradient updates over the hidden chain: each hidden layer's edges
read the (unchanged) deltas of the layer after it. -/
def applyGradHiddens (lr : ℚ) : List HiddenLayer → List ℚ → List HiddenLayer
  | [], _ => []
  | [h], outDeltas => [updateLayerHidden h outDeltas lr]
  | h :: h2 :: rest, outDeltas =>
      updateLayerHidden h (layerDeltas h2.nodes) lr :: applyGradHiddens lr (h2 :: rest) outDeltas

/-- The deltas of the first layer of a hidden chain, or `outD` when the
chain is empty. -/
def headDeltas (hs' : List HiddenLayer) (outD : List ℚ) : List ℚ :=
  match hs' with
  | [] => outD
  | h :: _ => layerDeltas h.nodes

/-- The deltas seen through the input layer's outgoing edges: the first
hidden layer's, or the output layer's when there is no hidden layer. -/
def nextDeltasOfInput (net : NeuralNetwork) : List ℚ :=
  headDeltas net.hiddenLayers (layerDeltas net.outputLayer.nodes)

/-- `NeuralNetwork::applyGradients` : update the input layer, every
hidden layer, then the output layer.  Gradient updates only write
`weight`/`bias` fields and only read `value`/`delta` fields, so the
functional one-shot update coincides with the C++ sequential loop. -/
def NeuralNetwork.applyGradients (net : NeuralNetwork) (lr : ℚ) : NeuralNetwork :=
  { inputLayer := updateLayerInput net.inputLayer (nextDeltasOfInput net) lr,
    hiddenLayers := applyGradHiddens lr net.hiddenLayers (layerDeltas net.outputLayer.nodes),
    outputLayer := updateLayerOutput net.outputLayer lr }

/-- `NeuralNetwork::backpropagate` : output deltas, hidden deltas back
to front, input deltas, then `applyGradients`. -/
def NeuralNetwork.backpropagate (net : NeuralNetwork) (expected : List ℚ) (lr : ℚ) :
    NeuralNetwork :=
  let ol : OutputLayer := ⟨setOutputDeltas net.outputLayer.nodes expected⟩
  let hp := backHiddens net.hiddenLayers (layerDeltas ol.nodes)
  let il : InputLayer :=
    { net.inputLayer with nodes := setInputNodeDeltas net.inputLayer.edges hp.2 0 net.inputLayer.nodes }
  NeuralNetwork.applyGradients ⟨il, hp.1, ol⟩ lr

/-- Number of input nodes (`NeuralNetwork::getInputSize`). -/
def NeuralNetwork.getInputSize (net : NeuralNetwork) : ℕ := net.inputLayer.nodes.length

/-- Number of output nodes (`NeuralNetwork::getOutputSize`). -/
def NeuralNetwork.getOutputSize (net : NeuralNetwork) : ℕ := net.outputLayer.nodes.length

/-- Number of hidden layers (`NeuralNetwork::getHiddenLayerCount`). -/
def NeuralNetwork.getHiddenLayerCount (net : NeuralNetwork) : ℕ := net.hiddenLayers.length

/-- One iteration of the inner loop of `NeuralNetwork::train`: split
the row at `inputSize`, forward pass, loss (whose value feeds only the
disabled diagnostics, but whose shape check can throw and abort
training), then `backpropagate` with the hard-coded rate `0.001f`. -/
def NeuralNetwork.trainStep (sig logf : ℚ → ℚ) (net : NeuralNetwork) (row : List ℚ) :
    Except String NeuralNetwork := do
  let inputs := row.take net.getInputSize
  let targets := row.drop net.getInputSize
  let fr ← net.forward sig inputs
  let _loss ← fr.2.outputLayer.calculateLoss logf targets
  .ok (fr.2.backpropagate targets (1 / 1000))

/-- Inner chunk loop of `train`: process rows sequentially; a thrown
exception aborts the whole call. -/
def runChunk (sig logf : ℚ → ℚ) : NeuralNetwork → List (List ℚ) → Except String NeuralNetwork
  | net, [] => .ok net
  | net, row :: rows => do
      let net' ← net.trainStep sig logf row
      runChunk sig logf net' rows

/-- Outer chunk loop of `train`
(`for (size_t i = 0; i < trainingData.size(); i += batchSize)`),
with an explicit fuel argument standing for the loop-iteration bound;
`fuel = data.length` suffices for every positive batch size (proved in
`trainAuxF_eq_runChunk`), mirroring the C++ loop, which advances `i`
by `batchSize ≥ 1` each iteration. -/
def trainAuxF (sig logf : ℚ → ℚ) (b : ℕ) :
    ℕ → NeuralNetwork → List (List ℚ) → Except String NeuralNetwork
  | _, net, [] => .ok net
  | 0, net, _ :: _ => .ok net
  | fuel + 1, net, d :: ds => do
      let net' ← runChunk sig logf net ((d :: ds).take b)
      trainAuxF sig logf b fuel net' ((d :: ds).drop b)

/-- `NeuralNetwork::train(trainingData, batchSize)` : chunked
per-sample stochastic gradient descent.  Defined (and claimed) for
positive `batchSize`; the C++ loop never terminates at `batchSize = 0`. -/
def NeuralNetwork.train (sig logf : ℚ → ℚ) (net : NeuralNetwork) (data : List (List ℚ))
    (batchSize : ℕ) : Except String NeuralNetwork :=
  trainAuxF sig logf batchSize data.length net data

/-- Modelled from the spec for comparison with `train` (claim about the
learning rate): the same training loop with the learning rate left as a
parameter instead of the hard-coded `0.001f`.  `trainStepRate` is the
per-sample step. -/
def NeuralNetwork.trainStepRate (sig logf : ℚ → ℚ) (lr : ℚ) (net : NeuralNetwork)
    (row : List ℚ) : Except String NeuralNetwork := do
  let inputs := row.take net.getInputSize
  let targets := row.drop net.getInputSize
  let fr ← net.forward sig inputs
  let _loss ← fr.2.outputLayer.calculateLoss logf targets
  .ok (fr.2.backpropagate targets lr)

/-- Rate-parametric inner chunk loop. -/
def runChunkRate (sig logf : ℚ → ℚ) (lr : ℚ) :
    NeuralNetwork → List (List ℚ) → Except String NeuralNetwork
  | net, [] => .ok net
  | net, row :: rows => do
      let net' ← net.trainStepRate sig logf lr row
      runChunkRate sig logf lr net' rows

/-- Rate-parametric outer chunk loop. -/
def trainAuxFRate (sig logf : ℚ → ℚ) (lr : ℚ) (b : ℕ) :
    ℕ → NeuralNetwork → List (List ℚ) → Except String NeuralNetwork
  | _, net, [] => .ok net
  | 0, net, _ :: _ => .ok net
  | fuel + 1, net, d :: ds => do
      let net' ← runChunkRate sig logf lr net ((d :: ds).take b)
      trainAuxFRate sig logf lr b fuel net' ((d :: ds).drop b)

/-- Rate-parametric `train`. -/
def NeuralNetwork.trainRate (sig logf : ℚ → ℚ) (lr : ℚ) (net : NeuralNetwork)
    (data : List (List ℚ)) (batchSize : ℕ) : Except String NeuralNetwork :=
  trainAuxFRate sig logf lr batchSize data.length net data

/-- `NeuralNetwork::calculateHiddenLayerSize` :
`max(1, (inputSize + outputSize) * 2 / 3)` in C++ `int` arithmetic. -/
def calculateHiddenLayerSize (inputSize outputSize : ℤ) : ℤ :=
  max 1 ((inputSize + outputSize) * 2 / 3)

/-- Chain of `attachLayer` calls over the hidden layers
(`hiddenLayers[i]->attachLayer(hiddenLayers[i+1])`, then
`hiddenLayers.back()->attachLayer(outputLayer)`), with `w k` the weight
stream of the `k`-th attachment. -/
def connectHiddens (w : ℕ → ℕ → ℕ → ℚ) (k : ℕ) :
    List HiddenLayer → OutputLayer → Except String (List HiddenLayer)
  | [], _ => .ok []
  | [h], ol => do
      let h' ← h.attachLayer ol.nodes (w k)
      .ok [h']
  | h :: h2 :: rest, ol => do
      let h' ← h.attachLayer h2.nodes (w k)
      let rest' ← connectHiddens w (k + 1) (h2 :: rest) ol
      .ok (h' :: rest')

/-- `NeuralNetwork::createConnections` : input layer to first hidden
layer (or directly to the output layer), then the hidden chain. -/
def createConnections (il : InputLayer) (hs : List HiddenLayer) (ol : OutputLayer)
    (w : ℕ → ℕ → ℕ → ℚ) : Except String (InputLayer × List HiddenLayer) :=
  match hs with
  | [] => do
      let il' ← il.attachLayer ol.nodes (w 0)
      .ok (il', [])
  | h :: rest => do
      let il' ← il.attachLayer h.nodes (w 0)
      let hs' ← connectHiddens w 1 (h :: rest) ol
      .ok (il', hs')

/-- Three-argument constructor
`NeuralNetwork(inputSize, outputSize, hiddenLayerCount)` : argument
validation, node allocation (hidden width from
`calculateHiddenLayerSize`), then `createConnections`.  `hb k`/`ob`
are the bias streams of hidden layer `k` / the output layer and `w`
the per-attachment weight streams. -/
def NeuralNetwork.make (inputSize outputSize hiddenLayerCount : ℤ)
    (hb : ℕ → ℕ → ℚ) (ob : ℕ → ℚ) (w : ℕ → ℕ → ℕ → ℚ) :
    Except String NeuralNetwork :=
  if inputSize ≤ 0 ∨ outputSize ≤ 0 ∨ hiddenLayerCount < 0 then
    .error "Invalid network dimensions"
  else
    let il : InputLayer := ⟨initializeInputNodes inputSize.toNat, []⟩
    let ol : OutputLayer := ⟨initializeBiasedNodes ob outputSize.toNat⟩
    let hSize := (calculateHiddenLayerSize inputSize outputSize).toNat
    let hs := (List.range hiddenLayerCount.toNat).map fun k =>
      (⟨initializeBiasedNodes (hb k) hSize, []⟩ : HiddenLayer)
    match createConnections il hs ol w with
    | .error e => .error e
    | .ok p => .ok ⟨p.1, p.2, ol⟩

/-- Four-argument constructor
`NeuralNetwork(inputSize, outputSize, hiddenLayerCount, hiddenLayerSize)` :
like `make` but with an explicit, validated hidden width. -/
def NeuralNetwork.makeWithHiddenSize (inputSize outputSize hiddenLayerCount hiddenLayerSize : ℤ)
    (hb : ℕ → ℕ → ℚ) (ob : ℕ → ℚ) (w : ℕ → ℕ → ℕ → ℚ) :
    Except String NeuralNetwork :=
  if inputSize ≤ 0 ∨ outputSize ≤ 0 ∨ hiddenLayerCount < 0 ∨ hiddenLayerSize ≤ 0 then
    .error "Invalid network dimensions"
  else
    let il : InputLayer := ⟨initializeInputNodes inputSize.toNat, []⟩
    let ol : OutputLayer := ⟨initializeBiasedNodes ob outputSize.toNat⟩
    let hs := (List.range hiddenLayerCount.toNat).map fun k =>
      (⟨initializeBiasedNodes (hb k) hiddenLayerSize.toNat, []⟩ : HiddenLayer)
    match createConnections il hs ol w with
    | .error e => .error e
    | .ok p => .ok ⟨p.1, p.2, ol⟩

/-! ### Basic length and preservation lemmas -/

@[simp]
theorem initializeInputNodes_length (n : ℕ) : (initializeInputNodes n).length = n := by
  simp [initializeInputNodes]

@[simp]
theorem initializeBiasedNodes_length (b : ℕ → ℚ) (n : ℕ) :
    (initializeBiasedNodes b n).length = n := by
  simp [initializeBiasedNodes]

@[simp]
theorem initializeEdges_length (src tgt : List Node) (w : ℕ → ℕ → ℚ) :
    (initializeEdges src tgt w).length = src.length * tgt.length := by
  simp only [initializeEdges, List.length_flatMap, Function.comp_def, List.length_map]
  rw [List.map_const', List.sum_replicate, List.length_range, smul_eq_mul]
  simp

theorem attachInput_ok {l l' : InputLayer} {next : List Node} {w : ℕ → ℕ → ℚ}
    (h : l.attachLayer next w = .ok l') :
    next ≠ [] ∧ l' = { l with edges := initializeEdges l.nodes next w } := by
  unfold InputLayer.attachLayer at h
  split at h
  · exact absurd h (by simp)
  · rename_i hne
    cases h
    exact ⟨by simpa [List.isEmpty_iff] using hne, rfl⟩

theorem attachHidden_ok {l l' : HiddenLayer} {next : List Node} {w : ℕ → ℕ → ℚ}
    (h : l.attachLayer next w = .ok l') :
    next ≠ [] ∧ l' = { l with edges := initializeEdges l.nodes next w } := by
  unfold HiddenLayer.attachLayer at h
  split at h
  · exact absurd h (by simp)
  · rename_i hne
    cases h
    exact ⟨by simpa [List.isEmpty_iff] using hne, rfl⟩

theorem attachInput_succeeds (l : InputLayer) (next : List Node) (w : ℕ → ℕ → ℚ)
    (h : next ≠ []) :
    l.attachLayer next w = .ok { l with edges := initializeEdges l.nodes next w } := by
  unfold InputLayer.attachLayer
  simp [List.isEmpty_iff, h]

theorem attachHidden_succeeds (l : HiddenLayer) (next : List Node) (w : ℕ → ℕ → ℚ)
    (h : next ≠ []) :
    l.attachLayer next w = .ok { l with edges := initializeEdges l.nodes next w } := by
  unfold HiddenLayer.attachLayer
  simp [List.isEmpty_iff, h]

/-! ### C6 : edge counts of `attachLayer`, and replacement on re-attach -/

/-- C6: for an Input or Hidden layer, a successful `attachLayer` leaves the
node list untouched and installs exactly `sourceCount * targetCount`
outgoing edges, and a second `attachLayer` call REPLACES the edge set
(the count is determined by the latest target alone, never accumulated). -/
theorem attachLayer_edge_count
    (li : InputLayer) (lh : HiddenLayer) (n1 n2 : List Node) (w1 w2 : ℕ → ℕ → ℚ)
    (li1 li2 : InputLayer) (lh1 lh2 : HiddenLayer)
    (hi1 : li.attachLayer n1 w1 = .ok li1) (hi2 : li1.attachLayer n2 w2 = .ok li2)
    (hh1 : lh.attachLayer n1 w1 = .ok lh1) (hh2 : lh1.attachLayer n2 w2 = .ok lh2) :
    li1.nodes = li.nodes ∧ li1.edges.length = li.nodes.length * n1.length ∧
    li2.nodes = li.nodes ∧ li2.edges.length = li.nodes.length * n2.length ∧
    lh1.nodes = lh.nodes ∧ lh1.edges.length = lh.nodes.length * n1.length ∧
    lh2.nodes = lh.nodes ∧ lh2.edges.length = lh.nodes.length * n2.length := by
  obtain ⟨-, h1⟩ := attachInput_ok hi1
  subst h1
  obtain ⟨-, h2⟩ := attachInput_ok hi2
  subst h2
  obtain ⟨-, h3⟩ := attachHidden_ok hh1
  subst h3
  obtain ⟨-, h4⟩ := attachHidden_ok hh2
  subst h4
  simp

/-- C6 witness: a one-node layer attached to a one-node and then a
two-node target carries 1 then 2 edges, for both layer kinds. -/
theorem attachLayer_edge_count_witness :
    (⟨[⟨0,0,0⟩], [⟨0,0,0⟩]⟩ : InputLayer).nodes = ([⟨0,0,0⟩] : List Node) ∧
    ([⟨0,0,0⟩] : List Edge).length = ([⟨0,0,0⟩] : List Node).length * ([⟨0,0,0⟩] : List Node).length ∧
    (⟨[⟨0,0,0⟩], [⟨0,0,0⟩, ⟨0,1,0⟩]⟩ : InputLayer).nodes = ([⟨0,0,0⟩] : List Node) ∧
    ([⟨0,0,0⟩, ⟨0,1,0⟩] : List Edge).length =
      ([⟨0,0,0⟩] : List Node).length * ([⟨0,0,0⟩, ⟨0,0,0⟩] : List Node).length ∧
    (⟨[⟨0,0,0⟩], [⟨0,0,0⟩]⟩ : HiddenLayer).nodes = ([⟨0,0,0⟩] : List Node) ∧
    ([⟨0,0,0⟩] : List Edge).length = ([⟨0,0,0⟩] : List Node).length * ([⟨0,0,0⟩] : List Node).length ∧
    (⟨[⟨0,0,0⟩], [⟨0,0,0⟩, ⟨0,1,0⟩]⟩ : HiddenLayer).nodes = ([⟨0,0,0⟩] : List Node) ∧
    ([⟨0,0,0⟩, ⟨0,1,0⟩] : List Edge).length =
      ([⟨0,0,0⟩] : List Node).length * ([⟨0,0,0⟩, ⟨0,0,0⟩] : List Node).length :=
  attachLayer_edge_count ⟨[⟨0,0,0⟩], []⟩ ⟨[⟨0,0,0⟩], []⟩ [⟨0,0,0⟩] [⟨0,0,0⟩, ⟨0,0,0⟩]
    (fun _ _ => 0) (fun _ _ => 0) _ _ _ _ rfl rfl rfl rfl

/-! ### C7 : shape-mismatch errors of `setInputValues` / `calculateLoss` -/

theorem setVals_map_value : ∀ (ns : List Node) (vs : List ℚ), vs.length = ns.length →
    (setVals ns vs).map (·.value) = vs
  | [], [], _ => rfl
  | [], _ :: _, h => by cases h
  | _ :: _, [], h => by cases h
  | n :: ns, v :: vs, h => by
      simp only [setVals, List.map_cons]
      rw [setVals_map_value ns vs (by simpa using h)]

theorem setVals_map_bias : ∀ (ns : List Node) (vs : List ℚ),
    (setVals ns vs).map (·.bias) = ns.map (·.bias)
  | [], _ => by simp [setVals]
  | _ :: _, [] => by simp [setVals]
  | n :: ns, v :: vs => by simp [setVals, setVals_map_bias ns vs]

theorem setVals_map_delta : ∀ (ns : List Node) (vs : List ℚ),
    (setVals ns vs).map (·.delta) = ns.map (·.delta)
  | [], _ => by simp [setVals]
  | _ :: _, [] => by simp [setVals]
  | n :: ns, v :: vs => by simp [setVals, setVals_map_delta ns vs]

/-- C7: `setInputValues` succeeds exactly when the vector length equals
the input node count, in which case the node values become exactly the
given vector (no truncation or padding) while biases, deltas and edges
are untouched; `calculateLoss` succeeds exactly when the expected
length equals the output node count, and it never writes any state
(the embedding takes the layer as a read-only argument, matching the
check-before-use source).  On the error side no mutated layer is
produced at all: the thrown call leaves the caller's state intact. -/
theorem shape_mismatch_fails_without_corruption
    (il : InputLayer) (vs : List ℚ) (ol : OutputLayer) (e : List ℝ) :
    ((∃ il', il.setInputValues vs = .ok il') ↔ vs.length = il.nodes.length) ∧
    (∀ il', il.setInputValues vs = .ok il' →
      il'.nodes.map (·.value) = vs ∧
      il'.nodes.map (·.bias) = il.nodes.map (·.bias) ∧
      il'.nodes.map (·.delta) = il.nodes.map (·.delta) ∧
      il'.edges = il.edges) ∧
    ((∃ x, ol.calculateLoss Real.log e = .ok x) ↔ e.length = ol.nodes.length) := by
  refine ⟨?_, ?_, ?_⟩
  · constructor
    · rintro ⟨il', h⟩
      unfold InputLayer.setInputValues at h
      split at h
      · exact absurd h (by simp)
      · exact not_ne_iff.mp ‹_›
    · intro h
      refine ⟨{ il with nodes := setVals il.nodes vs }, ?_⟩
      unfold InputLayer.setInputValues
      simp [h]
  · intro il' h
    unfold InputLayer.setInputValues at h
    split at h
    · exact absurd h (by simp)
    · cases h
      exact ⟨setVals_map_value _ _ (not_ne_iff.mp ‹_›), setVals_map_bias _ _,
        setVals_map_delta _ _, rfl⟩
  · constructor
    · rintro ⟨x, h⟩
      unfold OutputLayer.calculateLoss at h
      split at h
      · exact absurd h (by simp)
      · exact not_ne_iff.mp ‹_›
    · intro h
      refine ⟨lossSum Real.log e (ol.nodes.map fun n => (n.value : ℝ)) / (e.length : ℝ), ?_⟩
      unfold OutputLayer.calculateLoss
      simp [h]

/-- C7 witness: on a one-node input layer and a one-node output layer,
a length-1 vector is accepted by both calls. -/
theorem shape_mismatch_witness :
    (∃ il', (⟨[⟨0,0,0⟩], []⟩ : InputLayer).setInputValues [5] = .ok il') ∧
    (∃ x, (⟨[⟨0,0,0⟩]⟩ : OutputLayer).calculateLoss Real.log [1] = .ok x) :=
  ⟨(shape_mismatch_fails_without_corruption ⟨[⟨0,0,0⟩], []⟩ [5] ⟨[⟨0,0,0⟩]⟩ [1]).1.mpr rfl,
   (shape_mismatch_fails_without_corruption ⟨[⟨0,0,0⟩], []⟩ [5] ⟨[⟨0,0,0⟩]⟩ [1]).2.2.mpr rfl⟩

/-! ### C1 : the source computes the loss without the required clamp -/

/-- A saturated output layer: a single output node whose sigmoid has
saturated to exactly 0. -/
def saturatedOut : OutputLayer := ⟨[⟨0, 0, 0⟩]⟩

/-- C1 (violated by the source): at a saturated output (actual value 0)
with expected value 1, the loss the source computes is the unclamped
`-1*log(0) - 0*log(1)` — in C++ float arithmetic `-log(0) = +inf`, in
the real-number model `Real.log 0 = 0` — while the clamped loss the
specification mandates is the finite positive number `15 * log 10 =
-log(1e-15)`.  The two disagree, so `calculateLoss` does NOT clamp the
actual values away from 0 and 1 before taking the logarithm. -/
theorem calculateLoss_omits_clamp :
    OutputLayer.calculateLoss Real.log saturatedOut [1] = .ok 0 ∧
    OutputLayer.calculateLossClamped Real.log saturatedOut [1] = .ok (15 * Real.log 10) ∧
    OutputLayer.calculateLoss Real.log saturatedOut [1] ≠
      OutputLayer.calculateLossClamped Real.log saturatedOut [1] := by
  have hclamp : clampUnit (0 : ℝ) = 1 / 10 ^ 15 := by
    unfold clampUnit
    rw [min_eq_right (by norm_num), max_eq_left (by norm_num)]
  have hlog : Real.log (1 / 10 ^ 15) = -(15 * Real.log 10) := by
    rw [one_div, Real.log_inv, Real.log_pow]
    norm_num
  have h1 : OutputLayer.calculateLoss Real.log saturatedOut [1] = .ok 0 := by
    unfold OutputLayer.calculateLoss saturatedOut
    norm_num [lossSum, Real.log_zero]
  have h2 : OutputLayer.calculateLossClamped Real.log saturatedOut [1] =
      .ok (15 * Real.log 10) := by
    unfold OutputLayer.calculateLossClamped saturatedOut
    norm_num [lossSum, hclamp]
    rw [show ((1:ℝ)/1000000000000000) = ((10:ℝ)^15)⁻¹ by norm_num, Real.log_inv, Real.log_pow]
    norm_num
  refine ⟨h1, h2, ?_⟩
  rw [h1, h2]
  have : (0 : ℝ) < Real.log 10 := Real.log_pos (by norm_num)
  simp only [ne_eq, Except.ok.injEq]
  intro h
  nlinarith

/-! ### C5 / C9 : the training loop -/

theorem trainStep_eq_rate (sig logf : ℚ → ℚ) (net : NeuralNetwork) (row : List ℚ) :
    net.trainStep sig logf row = net.trainStepRate sig logf (1 / 1000) row := rfl

theorem runChunk_eq_rate (sig logf : ℚ → ℚ) :
    ∀ (rows : List (List ℚ)) (net : NeuralNetwork),
      runChunk sig logf net rows = runChunkRate sig logf (1 / 1000) net rows := by
  intro rows
  induction rows with
  | nil => intro net; rfl
  | cons r rs ih =>
      intro net
      simp only [runChunk, runChunkRate, ← trainStep_eq_rate]
      cases h : net.trainStep sig logf r <;> simp [h, ih]

theorem trainAuxF_eq_rate (sig logf : ℚ → ℚ) (b : ℕ) :
    ∀ (fuel : ℕ) (net : NeuralNetwork) (data : List (List ℚ)),
      trainAuxF sig logf b fuel net data = trainAuxFRate sig logf (1 / 1000) b fuel net data := by
  intro fuel
  induction fuel with
  | zero =>
      intro net data
      cases data <;> simp [trainAuxF, trainAuxFRate]
  | succ fuel ih =>
      intro net data
      cases data with
      | nil => simp [trainAuxF, trainAuxFRate]
      | cons d ds =>
          simp only [trainAuxF, trainAuxFRate, ← runChunk_eq_rate]
          cases h : runChunk sig logf net ((d :: ds).take b) <;> simp [h, ih]

/-- C9: `train` performs every gradient update with the hard-coded
learning rate `0.001f`: it coincides, for every batch size and every
data set, with the rate-parametric training loop instantiated at
`1/1000` — the rate is not configurable by the caller. -/
theorem train_hardcoded_learning_rate (sig logf : ℚ → ℚ) (net : NeuralNetwork)
    (data : List (List ℚ)) (b : ℕ) :
    net.train sig logf data b = NeuralNetwork.trainRate sig logf (1 / 1000) net data b := by
  unfold NeuralNetwork.train NeuralNetwork.trainRate
  exact trainAuxF_eq_rate sig logf b data.length net data

theorem runChunk_append (sig logf : ℚ → ℚ) :
    ∀ (xs ys : List (List ℚ)) (net : NeuralNetwork),
      runChunk sig logf net (xs ++ ys) =
        (runChunk sig logf net xs) >>= fun n => runChunk sig logf n ys := by
  intro xs
  induction xs with
  | nil => intro ys net; rfl
  | cons r rs ih =>
      intro ys net
      simp only [List.cons_append, runChunk]
      cases h : net.trainStep sig logf r <;> simp [h, ih]

theorem trainAuxF_eq_runChunk (sig logf : ℚ → ℚ) (b : ℕ) (hb : 1 ≤ b) :
    ∀ (fuel : ℕ) (data : List (List ℚ)) (net : NeuralNetwork), data.length ≤ fuel →
      trainAuxF sig logf b fuel net data = runChunk sig logf net data := by
  intro fuel
  induction fuel with
  | zero =>
      intro data net hlen
      cases data with
      | nil => rfl
      | cons d ds => simp only [List.length_cons] at hlen; omega
  | succ fuel ih =>
      intro data net hlen
      cases data with
      | nil => rfl
      | cons d ds =>
          simp only [trainAuxF]
          conv_rhs => rw [← List.take_append_drop b (d :: ds)]
          rw [runChunk_append]
          cases h : runChunk sig logf net ((d :: ds).take b) with
          | error e => rfl
          | ok n =>
              have hd : ((d :: ds).drop b).length ≤ fuel := by
                simp only [List.length_drop, List.length_cons] at *
                omega
              exact ih _ _ hd

/-- C5: for every positive batch size, `train` performs exactly the
per-sample forward → loss → backward → update sequence of
`train(samples, 1)`: the chunking is only a loop boundary, there is no
gradient accumulation or averaging, and the resulting network state
(all weights and biases) is independent of `batchSize`. -/
theorem train_batchSize_independent (sig logf : ℚ → ℚ) (net : NeuralNetwork)
    (data : List (List ℚ)) (b : ℕ) (hb : 1 ≤ b) :
    net.train sig logf data b = net.train sig logf data 1 := by
  unfold NeuralNetwork.train
  rw [trainAuxF_eq_runChunk sig logf b hb data.length data net le_rfl,
    trainAuxF_eq_runChunk sig logf 1 le_rfl data.length data net le_rfl]

/-- Concrete one-input/one-output network used by the training witnesses. -/
def net5w : NeuralNetwork := ⟨⟨[⟨0, 0, 0⟩], [⟨0, 0, 1/2⟩]⟩, [], ⟨[⟨0, 0, 0⟩]⟩⟩

/-- C5 witness: three samples trained with batch size 2 end in the same
state as with batch size 1. -/
theorem train_batchSize_independent_witness :
    NeuralNetwork.train (fun q => q) (fun q => q) net5w [[1, 1], [0, 1], [1, 0]] 2 =
      NeuralNetwork.train (fun q => q) (fun q => q) net5w [[1, 1], [0, 1], [1, 0]] 1 :=
  train_batchSize_independent (fun q => q) (fun q => q) net5w [[1, 1], [0, 1], [1, 0]] 2
    (by decide)

/-! ### C8 / C10 : constructor validation and default hidden width -/

instance : Inhabited NeuralNetwork := ⟨⟨⟨[], []⟩, [], ⟨[]⟩⟩⟩

theorem connectHiddens_nodes (w : ℕ → ℕ → ℕ → ℚ) :
    ∀ (hs : List HiddenLayer) (k : ℕ) (ol : OutputLayer) (hs' : List HiddenLayer),
      connectHiddens w k hs ol = .ok hs' → hs'.map (·.nodes) = hs.map (·.nodes) := by
  intro hs
  induction hs with
  | nil =>
      intro k ol hs' h
      cases h
      rfl
  | cons h1 rest ih =>
      intro k ol hs' h
      cases rest with
      | nil =>
          simp only [connectHiddens] at h
          cases hA : h1.attachLayer ol.nodes (w k) with
          | error e =>
              rw [hA] at h
              exact Except.noConfusion (show Except.error e = Except.ok hs' from h)
          | ok h1' =>
              rw [hA] at h
              cases Except.ok.inj (show Except.ok [h1'] = Except.ok hs' from h)
              obtain ⟨-, hE⟩ := attachHidden_ok hA
              subst hE
              rfl
      | cons h2 rest2 =>
          simp only [connectHiddens] at h
          cases hA : h1.attachLayer h2.nodes (w k) with
          | error e =>
              rw [hA] at h
              exact Except.noConfusion (show Except.error e = Except.ok hs' from h)
          | ok h1' =>
              rw [hA] at h
              cases hB : connectHiddens w (k + 1) (h2 :: rest2) ol with
              | error e =>
                  rw [hB] at h
                  exact Except.noConfusion (show Except.error e = Except.ok hs' from h)
              | ok rest' =>
                  rw [hB] at h
                  cases Except.ok.inj (show Except.ok (h1' :: rest') = Except.ok hs' from h)
                  obtain ⟨-, hE⟩ := attachHidden_ok hA
                  subst hE
                  simpa using ih (k + 1) ol rest' hB

theorem connectHiddens_succeeds (w : ℕ → ℕ → ℕ → ℚ) :
    ∀ (hs : List HiddenLayer) (k : ℕ) (ol : OutputLayer), ol.nodes ≠ [] →
      (∀ h ∈ hs, h.nodes ≠ []) → ∃ hs', connectHiddens w k hs ol = .ok hs' := by
  intro hs
  induction hs with
  | nil => exact fun k ol _ _ => ⟨[], rfl⟩
  | cons h1 rest ih =>
      intro k ol hol hne
      cases rest with
      | nil =>
          refine ⟨[{ h1 with edges := initializeEdges h1.nodes ol.nodes (w k) }], ?_⟩
          simp only [connectHiddens]
          rw [attachHidden_succeeds h1 ol.nodes (w k) hol]
          rfl
      | cons h2 rest2 =>
          obtain ⟨hs', hcc⟩ := ih (k + 1) ol hol (fun h hm => hne h (List.mem_cons_of_mem _ hm))
          refine ⟨{ h1 with edges := initializeEdges h1.nodes h2.nodes (w k) } :: hs', ?_⟩
          simp only [connectHiddens]
          rw [attachHidden_succeeds h1 h2.nodes (w k)
            (hne h2 (List.mem_cons_of_mem _ (List.mem_cons_self _ _))), hcc]
          rfl

theorem createConnections_nodes {il : InputLayer} {hs : List HiddenLayer} {ol : OutputLayer}
    {w : ℕ → ℕ → ℕ → ℚ} {pr : InputLayer × List HiddenLayer}
    (h : createConnections il hs ol w = .ok pr) :
    pr.1.nodes = il.nodes ∧ pr.2.map (·.nodes) = hs.map (·.nodes) := by
  cases hs with
  | nil =>
      simp only [createConnections] at h
      cases hA : il.attachLayer ol.nodes (w 0) with
      | error e =>
          rw [hA] at h
          exact Except.noConfusion (show Except.error e = Except.ok pr from h)
      | ok il' =>
          rw [hA] at h
          cases Except.ok.inj (show Except.ok (il', ([] : List HiddenLayer)) = Except.ok pr from h)
          obtain ⟨-, hE⟩ := attachInput_ok hA
          subst hE
          exact ⟨rfl, rfl⟩
  | cons h1 rest =>
      simp only [createConnections] at h
      cases hA : il.attachLayer h1.nodes (w 0) with
      | error e =>
          rw [hA] at h
          exact Except.noConfusion (show Except.error e = Except.ok pr from h)
      | ok il' =>
          rw [hA] at h
          cases hB : connectHiddens w 1 (h1 :: rest) ol with
          | error e =>
              rw [hB] at h
              exact Except.noConfusion (show Except.error e = Except.ok pr from h)
          | ok hs' =>
              rw [hB] at h
              cases Except.ok.inj (show Except.ok (il', hs') = Except.ok pr from h)
              obtain ⟨-, hE⟩ := attachInput_ok hA
              subst hE
              exact ⟨rfl, connectHiddens_nodes w (h1 :: rest) 1 ol hs' hB⟩

theorem createConnections_succeeds {il : InputLayer} {hs : List HiddenLayer} {ol : OutputLayer}
    (w : ℕ → ℕ → ℕ → ℚ) (hil : il.nodes ≠ []) (hol : ol.nodes ≠ [])
    (hhs : ∀ h ∈ hs, h.nodes ≠ []) :
    ∃ pr, createConnections il hs ol w = .ok pr := by
  cases hs with
  | nil =>
      refine ⟨({ il with edges := initializeEdges il.nodes ol.nodes (w 0) }, []), ?_⟩
      simp only [createConnections]
      rw [attachInput_succeeds il ol.nodes (w 0) hol]
      rfl
  | cons h1 rest =>
      obtain ⟨hs', hcc⟩ := connectHiddens_succeeds w (h1 :: rest) 1 ol hol hhs
      refine ⟨({ il with edges := initializeEdges il.nodes h1.nodes (w 0) }, hs'), ?_⟩
      simp only [createConnections]
      rw [attachInput_succeeds il h1.nodes (w 0)
        (hhs h1 (List.mem_cons_self _ _)), hcc]
      rfl

theorem make_ok_spec {i o hc : ℤ} {hb : ℕ → ℕ → ℚ} {ob : ℕ → ℚ} {w : ℕ → ℕ → ℕ → ℚ}
    {net : NeuralNetwork} (h : NeuralNetwork.make i o hc hb ob w = .ok net) :
    ¬(i ≤ 0 ∨ o ≤ 0 ∨ hc < 0) ∧
    net.getInputSize = i.toNat ∧ net.getOutputSize = o.toNat ∧
    net.getHiddenLayerCount = hc.toNat ∧
    net.hiddenLayers.map (fun hl => hl.nodes.length) =
      List.replicate hc.toNat (calculateHiddenLayerSize i o).toNat := by
  by_cases hcond : i ≤ 0 ∨ o ≤ 0 ∨ hc < 0
  · rw [NeuralNetwork.make, if_pos hcond] at h
    exact Except.noConfusion h
  · simp only [NeuralNetwork.make, if_neg hcond] at h
    split at h
    · exact Except.noConfusion h
    · rename_i pr hcc
      cases Except.ok.inj h
      obtain ⟨h1, h2⟩ := createConnections_nodes hcc
      refine ⟨hcond, ?_, ?_, ?_, ?_⟩
      · simp [NeuralNetwork.getInputSize, h1]
      · simp [NeuralNetwork.getOutputSize]
      · have := congrArg List.length h2
        simpa [NeuralNetwork.getHiddenLayerCount] using this
      · have hml := congrArg (List.map List.length) h2
        simp only [List.map_map, Function.comp_def, initializeBiasedNodes_length] at hml
        rw [hml, List.map_const', List.length_range]

theorem make_succeeds {i o hc : ℤ} (hb : ℕ → ℕ → ℚ) (ob : ℕ → ℚ) (w : ℕ → ℕ → ℕ → ℚ)
    (hi : 0 < i) (ho : 0 < o) (hhc : 0 ≤ hc) :
    ∃ net, NeuralNetwork.make i o hc hb ob w = .ok net := by
  have hcond : ¬(i ≤ 0 ∨ o ≤ 0 ∨ hc < 0) := by omega
  have hil : (⟨initializeInputNodes i.toNat, []⟩ : InputLayer).nodes ≠ [] := by
    apply List.length_pos.mp
    simp
    omega
  have hol : (⟨initializeBiasedNodes ob o.toNat⟩ : OutputLayer).nodes ≠ [] := by
    apply List.length_pos.mp
    simp
    omega
  have hhs : ∀ hl ∈ (List.range hc.toNat).map fun k =>
      (⟨initializeBiasedNodes (hb k) (calculateHiddenLayerSize i o).toNat, []⟩ : HiddenLayer),
      hl.nodes ≠ [] := by
    intro hl hm
    obtain ⟨k, -, rfl⟩ := List.mem_map.mp hm
    apply List.length_pos.mp
    simp only [initializeBiasedNodes_length]
    unfold calculateHiddenLayerSize
    omega
  obtain ⟨pr, hcc⟩ := createConnections_succeeds w hil hol hhs
  refine ⟨⟨pr.1, pr.2, ⟨initializeBiasedNodes ob o.toNat⟩⟩, ?_⟩
  simp only [NeuralNetwork.make, if_neg hcond]
  rw [hcc]

theorem makeWithHiddenSize_ok_spec {i o hc hsz : ℤ} {hb : ℕ → ℕ → ℚ} {ob : ℕ → ℚ}
    {w : ℕ → ℕ → ℕ → ℚ} {net : NeuralNetwork}
    (h : NeuralNetwork.makeWithHiddenSize i o hc hsz hb ob w = .ok net) :
    ¬(i ≤ 0 ∨ o ≤ 0 ∨ hc < 0 ∨ hsz ≤ 0) ∧
    net.getInputSize = i.toNat ∧ net.getOutputSize = o.toNat ∧
    net.getHiddenLayerCount = hc.toNat := by
  by_cases hcond : i ≤ 0 ∨ o ≤ 0 ∨ hc < 0 ∨ hsz ≤ 0
  · rw [NeuralNetwork.makeWithHiddenSize, if_pos hcond] at h
    exact Except.noConfusion h
  · simp only [NeuralNetwork.makeWithHiddenSize, if_neg hcond] at h
    split at h
    · exact Except.noConfusion h
    · rename_i pr hcc
      cases Except.ok.inj h
      obtain ⟨h1, h2⟩ := createConnections_nodes hcc
      refine ⟨hcond, ?_, ?_, ?_⟩
      · simp [NeuralNetwork.getInputSize, h1]
      · simp [NeuralNetwork.getOutputSize]
      · have := congrArg List.length h2
        simpa [NeuralNetwork.getHiddenLayerCount] using this

theorem makeWithHiddenSize_succeeds {i o hc hsz : ℤ} (hb : ℕ → ℕ → ℚ) (ob : ℕ → ℚ)
    (w : ℕ → ℕ → ℕ → ℚ) (hi : 0 < i) (ho : 0 < o) (hhc : 0 ≤ hc) (hs : 0 < hsz) :
    ∃ net, NeuralNetwork.makeWithHiddenSize i o hc hsz hb ob w = .ok net := by
  have hcond : ¬(i ≤ 0 ∨ o ≤ 0 ∨ hc < 0 ∨ hsz ≤ 0) := by omega
  have hil : (⟨initializeInputNodes i.toNat, []⟩ : InputLayer).nodes ≠ [] := by
    apply List.length_pos.mp
    simp
    omega
  have hol : (⟨initializeBiasedNodes ob o.toNat⟩ : OutputLayer).nodes ≠ [] := by
    apply List.length_pos.mp
    simp
    omega
  have hhs : ∀ hl ∈ (List.range hc.toNat).map fun k =>
      (⟨initializeBiasedNodes (hb k) hsz.toNat, []⟩ : HiddenLayer), hl.nodes ≠ [] := by
    intro hl hm
    obtain ⟨k, -, rfl⟩ := List.mem_map.mp hm
    apply List.length_pos.mp
    simp only [initializeBiasedNodes_length]
    omega
  obtain ⟨pr, hcc⟩ := createConnections_succeeds w hil hol hhs
  refine ⟨⟨pr.1, pr.2, ⟨initializeBiasedNodes ob o.toNat⟩⟩, ?_⟩
  simp only [NeuralNetwork.makeWithHiddenSize, if_neg hcond]
  rw [hcc]

/-- C8: both constructors fail (with the invalid-argument error, and
without producing any network) exactly when `inputSize <= 0`,
`outputSize <= 0`, `hiddenLayerCount < 0`, or — four-argument form —
`hiddenLayerSize <= 0`; on success the constructed network's declared
input size, output size and hidden-layer count equal the requested
values. -/
theorem constructor_validation (i o hc hsz : ℤ) (hb : ℕ → ℕ → ℚ) (ob : ℕ → ℚ)
    (w : ℕ → ℕ → ℕ → ℚ) :
    ((∃ net, NeuralNetwork.make i o hc hb ob w = .ok net) ↔ 0 < i ∧ 0 < o ∧ 0 ≤ hc) ∧
    (∀ net, NeuralNetwork.make i o hc hb ob w = .ok net →
      (net.getInputSize : ℤ) = i ∧ (net.getOutputSize : ℤ) = o ∧
      (net.getHiddenLayerCount : ℤ) = hc) ∧
    ((∃ net, NeuralNetwork.makeWithHiddenSize i o hc hsz hb ob w = .ok net) ↔
      0 < i ∧ 0 < o ∧ 0 ≤ hc ∧ 0 < hsz) ∧
    (∀ net, NeuralNetwork.makeWithHiddenSize i o hc hsz hb ob w = .ok net →
      (net.getInputSize : ℤ) = i ∧ (net.getOutputSize : ℤ) = o ∧
      (net.getHiddenLayerCount : ℤ) = hc) := by
  refine ⟨⟨?_, ?_⟩, ?_, ⟨?_, ?_⟩, ?_⟩
  · rintro ⟨net, h⟩
    have := (make_ok_spec h).1
    omega
  · rintro ⟨hi, ho, hhc⟩
    exact make_succeeds hb ob w hi ho hhc
  · intro net h
    obtain ⟨hcond, h1, h2, h3, -⟩ := make_ok_spec h
    omega
  · rintro ⟨net, h⟩
    have := (makeWithHiddenSize_ok_spec h).1
    omega
  · rintro ⟨hi, ho, hhc, hs⟩
    exact makeWithHiddenSize_succeeds hb ob w hi ho hhc hs
  · intro net h
    obtain ⟨hcond, h1, h2, h3⟩ := makeWithHiddenSize_ok_spec h
    omega

/-- C8 witness: a (2, 1, 1)-network and a (2, 1, 1, 3)-network both
construct successfully. -/
theorem constructor_validation_witness :
    (∃ net, NeuralNetwork.make 2 1 1 (fun _ _ => 0) (fun _ => 0) (fun _ _ _ => 0) = .ok net) ∧
    (∃ net, NeuralNetwork.makeWithHiddenSize 2 1 1 3 (fun _ _ => 0) (fun _ => 0)
      (fun _ _ _ => 0) = .ok net) :=
  ⟨(constructor_validation 2 1 1 3 (fun _ _ => 0) (fun _ => 0) (fun _ _ _ => 0)).1.mpr
      (by decide),
   (constructor_validation 2 1 1 3 (fun _ _ => 0) (fun _ => 0) (fun _ _ _ => 0)).2.2.1.mpr
      (by decide)⟩

/-- C10: a network built by the three-argument constructor gives every
hidden layer exactly `max 1 ((inputSize + outputSize) * 2 / 3)` nodes,
where the division is the truncating (here: natural-number) one. -/
theorem default_hidden_width (i o hc : ℤ) (hb : ℕ → ℕ → ℚ) (ob : ℕ → ℚ)
    (w : ℕ → ℕ → ℕ → ℚ) (net : NeuralNetwork)
    (h : NeuralNetwork.make i o hc hb ob w = .ok net) :
    net.hiddenLayers.map (fun hl => hl.nodes.length) =
      List.replicate net.getHiddenLayerCount (max 1 ((i.toNat + o.toNat) * 2 / 3)) := by
  obtain ⟨hcond, -, -, hcount, hwidth⟩ := make_ok_spec h
  rw [hwidth, hcount]
  have : (calculateHiddenLayerSize i o).toNat = max 1 ((i.toNat + o.toNat) * 2 / 3) := by
    unfold calculateHiddenLayerSize
    omega
  rw [this]

/-- The concrete (3, 1, 2)-network of the C10 witness. -/
def net10w : NeuralNetwork :=
  match NeuralNetwork.make 3 1 2 (fun _ _ => 0) (fun _ => 0) (fun _ _ _ => 0) with
  | .ok n => n
  | .error _ => default

/-- C10 witness: with `inputSize = 3`, `outputSize = 1` the default
hidden width is `max 1 (8 / 3) = 2` for both hidden layers. -/
theorem default_hidden_width_witness :
    net10w.hiddenLayers.map (fun hl => hl.nodes.length) =
      List.replicate net10w.getHiddenLayerCount
        (max 1 (((3 : ℤ).toNat + (1 : ℤ).toNat) * 2 / 3)) :=
  default_hidden_width 3 1 2 (fun _ _ => 0) (fun _ => 0) (fun _ _ _ => 0) net10w rfl

/-! ### C3 : gradient application -/

/-- The deltas of the `k`-th layer onward of a hidden chain: the deltas
of the first layer remaining after dropping `k`, or `outD` when nothing
remains. -/
def nextInChain (hs' : List HiddenLayer) (outD : List ℚ) (k : ℕ) : List ℚ :=
  ((hs'.drop k).map fun h => layerDeltas h.nodes).headD outD

@[simp]
theorem nextInChain_cons (a : HiddenLayer) (t : List HiddenLayer) (outD : List ℚ) (k : ℕ) :
    nextInChain (a :: t) outD (k + 1) = nextInChain t outD k := rfl

/-- The deltas of the layer that hidden layer `l` feeds into: the next
hidden layer's, or the output layer's for the last hidden layer. -/
def specNextDeltas (net : NeuralNetwork) (l : ℕ) : List ℚ :=
  nextInChain net.hiddenLayers (layerDeltas net.outputLayer.nodes) (l + 1)

theorem applyGradHiddens_nodes (lr : ℚ) :
    ∀ (hs : List HiddenLayer) (outD : List ℚ),
      (applyGradHiddens lr hs outD).map (·.nodes) =
        hs.map (fun h => updateBiases h.nodes lr)
  | [], _ => rfl
  | [h], outD => rfl
  | h :: h2 :: rest, outD => by
      simp only [applyGradHiddens, List.map_cons, List.cons.injEq]
      exact ⟨rfl, applyGradHiddens_nodes lr (h2 :: rest) outD⟩

theorem applyGradHiddens_edges (lr : ℚ) :
    ∀ (hs : List HiddenLayer) (outD : List ℚ),
      (applyGradHiddens lr hs outD).map (·.edges) =
        (List.range hs.length).map (fun l =>
          updateEdges (hs.getD l default).edges (hs.getD l default).nodes
            (nextInChain hs outD (l + 1)) lr)
  | [], _ => rfl
  | [h], outD => rfl
  | h :: h2 :: rest, outD => by
      have ih := applyGradHiddens_edges lr (h2 :: rest) outD
      simp only [applyGradHiddens, List.map_cons]
      rw [List.length_cons, List.range_succ_eq_map, List.map_cons, List.map_map]
      refine congrArg₂ List.cons rfl ?_
      rw [ih]
      refine List.map_congr_left ?_
      intro l hl
      simp [List.getD_cons_succ, nextInChain_cons]

/-- The network used by the C3 counterexample: one input node carrying
delta 1 (as after any backward pass with a non-zero error signal), no
hidden layers, one output node. -/
def net3cex : NeuralNetwork := ⟨⟨[⟨0, 0, 1⟩], []⟩, [], ⟨[⟨0, 0, 0⟩]⟩⟩

/-- C3 counterexample: `applyGradients` DOES update the input-layer
node's bias (from `0` to `-lr * delta = -1/10`), contradicting the
claim that input-layer node biases are not updated. -/
theorem applyGradients_updates_input_bias :
    (net3cex.applyGradients (1/10)).inputLayer.nodes.map (·.bias) ≠
      net3cex.inputLayer.nodes.map (·.bias) := by
  simp only [net3cex, NeuralNetwork.applyGradients, updateLayerInput, updateBiases,
    updateEdges, nextDeltasOfInput, layerDeltas, List.map_cons, List.map_nil, ne_eq,
    List.cons.injEq]
  intro hcon
  have := hcon.1
  norm_num at this

/-- C3 (amended): `applyGradients` updates every edge of every
non-output layer by `weight -= lr * source.value * target.delta`
(the target's delta living in the next layer), and updates the bias of
EVERY node in EVERY layer — including the input layer — by
`bias -= lr * delta`.  (The input-layer bias update is behaviourally
inert: input biases start at 0 and `InputLayer::forward` never reads a
bias, but the field is mutated all the same.) -/
theorem applyGradients_formulas (net : NeuralNetwork) (lr : ℚ) :
    (net.applyGradients lr).inputLayer.edges =
      net.inputLayer.edges.map (fun e =>
        { e with weight := e.weight -
            lr * (net.inputLayer.nodes.getD e.source default).value *
              ((nextDeltasOfInput net).getD e.target 0) }) ∧
    (net.applyGradients lr).hiddenLayers.map (·.edges) =
      (List.range net.hiddenLayers.length).map (fun l =>
        (net.hiddenLayers.getD l default).edges.map (fun e =>
          { e with weight := e.weight -
              lr * ((net.hiddenLayers.getD l default).nodes.getD e.source default).value *
                ((specNextDeltas net l).getD e.target 0) })) ∧
    (net.applyGradients lr).inputLayer.nodes =
      net.inputLayer.nodes.map (fun n => { n with bias := n.bias - lr * n.delta }) ∧
    (net.applyGradients lr).hiddenLayers.map (·.nodes) =
      net.hiddenLayers.map (fun h => h.nodes.map fun n => { n with bias := n.bias - lr * n.delta }) ∧
    (net.applyGradients lr).outputLayer.nodes =
      net.outputLayer.nodes.map (fun n => { n with bias := n.bias - lr * n.delta }) := by
  refine ⟨rfl, ?_, rfl, ?_, rfl⟩
  · have h := applyGradHiddens_edges lr net.hiddenLayers (layerDeltas net.outputLayer.nodes)
    exact h
  · exact applyGradHiddens_nodes lr net.hiddenLayers (layerDeltas net.outputLayer.nodes)

/-! ### C4 : determinism of inference -/

theorem clearValues_clearValues (ns : List Node) :
    clearValues (clearValues ns) = clearValues ns := by
  unfold clearValues
  rw [List.map_map]
  exact List.map_congr_left fun n _ => rfl

theorem clearValues_map_value (g : Node → ℚ) (ns : List Node) :
    clearValues (ns.map fun n => { n with value := g n }) = clearValues ns := by
  unfold clearValues
  rw [List.map_map]
  exact List.map_congr_left fun n _ => rfl

theorem clearValues_updAt_value (g : Node → ℚ) :
    ∀ (ns : List Node) (i : ℕ),
      clearValues (updAt ns i fun n => { n with value := g n }) = clearValues ns
  | [], _ => rfl
  | n :: ns, 0 => rfl
  | n :: ns, i + 1 => congrArg (List.cons _) (clearValues_updAt_value g ns i)

theorem clearValues_propagate (src : List Node) :
    ∀ (es : List Edge) (tgt : List Node), clearValues (propagate src es tgt) = clearValues tgt
  | [], tgt => rfl
  | e :: es, tgt => by
      show clearValues (propagate src es
        (updAt tgt e.target fun n =>
          { n with value := n.value + (src.getD e.source default).value * e.weight })) = _
      rw [clearValues_propagate src es, clearValues_updAt_value
        (fun n => n.value + (src.getD e.source default).value * e.weight) tgt e.target]

theorem clearValues_setVals : ∀ (ns : List Node) (vs : List ℚ),
    clearValues (setVals ns vs) = clearValues ns
  | [], _ => by simp [setVals]
  | _ :: _, [] => by simp [setVals]
  | n :: ns, v :: vs => congrArg (List.cons _) (clearValues_setVals ns vs)

theorem InputLayer.setInputValues_ok {l l' : InputLayer} {vs : List ℚ}
    (h : l.setInputValues vs = .ok l') : l' = { l with nodes := setVals l.nodes vs } := by
  unfold InputLayer.setInputValues at h
  split at h
  · exact Except.noConfusion h
  · exact (Except.ok.inj h).symm

theorem forwardHiddensGo_reset :
    ∀ (rest : List HiddenLayer) (cur : HiddenLayer) (out : List Node),
      ((forwardHiddensGo cur rest out).1.map fun h =>
          ({ h with nodes := clearValues h.nodes } : HiddenLayer)) =
        ((cur :: rest).map fun h => { h with nodes := clearValues h.nodes }) ∧
      clearValues (forwardHiddensGo cur rest out).2 = clearValues out
  | [], cur, out => by
      constructor
      · simp only [forwardHiddensGo, List.map_cons, List.map_nil, HiddenLayer.processNodes]
        rw [clearValues_map_value]
      · simp only [forwardHiddensGo]
        rw [clearValues_propagate]
  | h2 :: rest2, cur, out => by
      have ih := forwardHiddensGo_reset rest2
        { h2 with nodes := propagate cur.processNodes.nodes cur.processNodes.edges h2.nodes } out
      constructor
      · simp only [forwardHiddensGo, List.map_cons]
        rw [ih.1]
        simp only [List.map_cons, HiddenLayer.processNodes]
        rw [clearValues_map_value, clearValues_propagate]
      · simp only [forwardHiddensGo]
        exact ih.2

theorem resetNetwork_idem (net : NeuralNetwork) :
    net.resetNetwork.resetNetwork = net.resetNetwork := by
  unfold NeuralNetwork.resetNetwork
  simp only [NeuralNetwork.mk.injEq, List.map_map]
  refine ⟨?_, ?_, ?_⟩
  · rw [clearValues_clearValues]
  · exact List.map_congr_left fun h _ => by
      simp only [Function.comp_apply]
      rw [clearValues_clearValues]
  · rw [clearValues_clearValues]

theorem resetNetwork_eq_of_components {m : NeuralNetwork} {il : InputLayer}
    {hs : List HiddenLayer} {ol : OutputLayer}
    (h1 : clearValues il.nodes = clearValues m.inputLayer.nodes)
    (h2 : il.edges = m.inputLayer.edges)
    (h3 : hs.map (fun h => ({ h with nodes := clearValues h.nodes } : HiddenLayer)) =
      m.hiddenLayers.map fun h => { h with nodes := clearValues h.nodes })
    (h4 : clearValues ol.nodes = clearValues m.outputLayer.nodes) :
    NeuralNetwork.resetNetwork ⟨il, hs, ol⟩ = m.resetNetwork := by
  unfold NeuralNetwork.resetNetwork
  simp only [NeuralNetwork.mk.injEq]
  exact ⟨congrArg₂ InputLayer.mk h1 h2, h3, congrArg OutputLayer.mk h4⟩

theorem forwardAfterReset_reset {sig : ℚ → ℚ} {m : NeuralNetwork} {x out : List ℚ}
    {net1 : NeuralNetwork} (h : m.forwardAfterReset sig x = .ok (out, net1)) :
    net1.resetNetwork = m.resetNetwork := by
  unfold NeuralNetwork.forwardAfterReset at h
  cases hsv : m.inputLayer.setInputValues x with
  | error e =>
      rw [hsv] at h
      exact Except.noConfusion h
  | ok il =>
      rw [hsv] at h
      have hil := InputLayer.setInputValues_ok hsv
      subst hil
      cases hh : m.hiddenLayers with
      | nil =>
          rw [hh] at h
          injection h with hp
          injection hp with hout hnet
          rw [← hnet]
          refine resetNetwork_eq_of_components ?_ rfl ?_ ?_
          · exact clearValues_setVals _ _
          · rw [hh]
          · simp only [OutputLayer.getOutput, OutputLayer.processNodes]
            rw [clearValues_map_value, clearValues_propagate]
      | cons hd tl =>
          rw [hh] at h
          injection h with hp
          injection hp with hout hnet
          rw [← hnet]
          have hgo := forwardHiddensGo_reset tl
            ⟨propagate (setVals m.inputLayer.nodes x) m.inputLayer.edges hd.nodes, hd.edges⟩
            m.outputLayer.nodes
          refine resetNetwork_eq_of_components ?_ rfl ?_ ?_
          · exact clearValues_setVals _ _
          · rw [hh]
            refine hgo.1.trans ?_
            simp only [List.map_cons]
            rw [clearValues_propagate]
          · simp only [OutputLayer.getOutput, OutputLayer.processNodes]
            rw [clearValues_map_value]
            exact hgo.2

/-- C4: inference is deterministic — if `forward(x)` returns an output
vector and leaves the network in state `net1`, then calling `forward(x)`
again (with no intervening training) returns the very same output
vector and the very same state: the pass depends only on `x` and the
persistent weights/biases, because `forward` begins with a full
`resetNetwork()` and mutates nothing but node values. -/
theorem forward_deterministic (sig : ℚ → ℚ) (net : NeuralNetwork) (x out : List ℚ)
    (net1 : NeuralNetwork) (h : NeuralNetwork.forward sig net x = .ok (out, net1)) :
    NeuralNetwork.forward sig net1 x = .ok (out, net1) := by
  have hr : net1.resetNetwork = net.resetNetwork := by
    have hs := forwardAfterReset_reset (m := net.resetNetwork) h
    rw [hs, resetNetwork_idem]
  show (net1.resetNetwork).forwardAfterReset sig x = .ok (out, net1)
  rw [hr]
  exact h

/-- The concrete network of the C4 witness. -/
def net4w : NeuralNetwork := ⟨⟨[⟨0, 0, 0⟩], [⟨0, 0, 1/2⟩]⟩, [], ⟨[⟨0, 1/4, 0⟩]⟩⟩

/-- The result of the first `forward` call of the C4 witness. -/
def net4r : List ℚ × NeuralNetwork :=
  match NeuralNetwork.forward (fun q => q) net4w [1] with
  | .ok p => p
  | .error _ => ([], net4w)

/-- C4 witness: running `forward` a second time from the state the
first call produced yields the identical output and state. -/
theorem forward_deterministic_witness :
    NeuralNetwork.forward (fun q => q) net4r.2 [1] = .ok (net4r.1, net4r.2) :=
  forward_deterministic (fun q => q) net4w [1] net4r.1 net4r.2 rfl

/-! ### C2 : backpropagation delta order and formulas -/

/-- Specification-side reading of the backward-pass edge scan: the sum,
over exactly the node's outgoing edges (those whose source is the
node), of `edge.weight * edge.target.delta`. -/
def filterEdgeSum (edges : List Edge) (i : ℕ) (nextDeltas : List ℚ) : ℚ :=
  ((edges.filter fun e => e.source = i).map fun e => e.weight * nextDeltas.getD e.target 0).sum

theorem foldl_if_sum (i : ℕ) (nd : List ℚ) :
    ∀ (edges : List Edge) (c : ℚ),
      edges.foldl (fun s e => if e.source = i then s + e.weight * nd.getD e.target 0 else s) c =
        c + filterEdgeSum edges i nd
  | [], c => by simp [filterEdgeSum]
  | e :: es, c => by
      by_cases h : e.source = i
      · simp only [List.foldl_cons, if_pos h, foldl_if_sum i nd es]
        simp [filterEdgeSum, List.filter_cons, h]
        ring
      · simp only [List.foldl_cons, if_neg h, foldl_if_sum i nd es]
        simp [filterEdgeSum, List.filter_cons, h]

theorem outEdgeSum_eq_filter (edges : List Edge) (i : ℕ) (nd : List ℚ) :
    outEdgeSum edges i nd = filterEdgeSum edges i nd := by
  have h := foldl_if_sum i nd edges 0
  simpa [outEdgeSum] using h

theorem setOutputDeltas_deltas : ∀ (ns : List Node) (es : List ℚ), es.length = ns.length →
    layerDeltas (setOutputDeltas ns es) = (ns.zip es).map fun p => p.1.value - p.2
  | [], [], _ => rfl
  | [], _ :: _, h => by cases h
  | _ :: _, [], h => by cases h
  | n :: ns, e :: es, h => by
      simp only [setOutputDeltas, layerDeltas, List.map_cons, List.zip_cons_cons]
      refine congrArg₂ List.cons rfl ?_
      have ih := setOutputDeltas_deltas ns es (by simpa using h)
      simpa [layerDeltas] using ih

theorem setHiddenNodeDeltas_deltas (edges : List Edge) (nd : List ℚ) :
    ∀ (ns : List Node) (k : ℕ),
      layerDeltas (setHiddenNodeDeltas edges nd k ns) =
        (List.range ns.length).map fun j =>
          outEdgeSum edges (k + j) nd * reluDerivative ((ns.getD j default).value)
  | [], _ => rfl
  | n :: ns, k => by
      simp only [setHiddenNodeDeltas, layerDeltas, List.map_cons, List.length_cons,
        List.range_succ_eq_map, List.map_map]
      refine congrArg₂ List.cons ?_ ?_
      · simp
      · have ih := setHiddenNodeDeltas_deltas edges nd ns (k + 1)
        simp only [layerDeltas] at ih
        rw [ih]
        refine List.map_congr_left fun j hj => ?_
        simp only [Function.comp_apply, List.getD_cons_succ]
        have hk : k + 1 + j = k + (j + 1) := by omega
        rw [hk]

theorem setInputNodeDeltas_deltas (edges : List Edge) (nd : List ℚ) :
    ∀ (ns : List Node) (k : ℕ),
      layerDeltas (setInputNodeDeltas edges nd k ns) =
        (List.range ns.length).map fun j => outEdgeSum edges (k + j) nd
  | [], _ => rfl
  | n :: ns, k => by
      simp only [setInputNodeDeltas, layerDeltas, List.map_cons, List.length_cons,
        List.range_succ_eq_map, List.map_map]
      refine congrArg₂ List.cons ?_ ?_
      · simp
      · have ih := setInputNodeDeltas_deltas edges nd ns (k + 1)
        simp only [layerDeltas] at ih
        rw [ih]
        refine List.map_congr_left fun j hj => ?_
        simp only [Function.comp_apply]
        have hk : k + 1 + j = k + (j + 1) := by omega
        rw [hk]

theorem updateBiases_deltas (ns : List Node) (lr : ℚ) :
    layerDeltas (updateBiases ns lr) = layerDeltas ns := by
  unfold layerDeltas updateBiases
  rw [List.map_map]
  exact List.map_congr_left fun n _ => rfl

theorem applyGradHiddens_deltas (lr : ℚ) (hs : List HiddenLayer) (outD : List ℚ) :
    (applyGradHiddens lr hs outD).map (fun h => layerDeltas h.nodes) =
      hs.map fun h => layerDeltas h.nodes := by
  have h := applyGradHiddens_nodes lr hs outD
  have h2 := congrArg (List.map layerDeltas) h
  simp only [List.map_map, Function.comp_def] at h2
  rw [h2]
  exact List.map_congr_left fun h3 _ => updateBiases_deltas _ _

theorem backHiddens_snd : ∀ (hs : List HiddenLayer) (outD : List ℚ),
    (backHiddens hs outD).2 = headDeltas (backHiddens hs outD).1 outD
  | [], _ => rfl
  | h :: rest, outD => rfl

theorem backHiddens_fst : ∀ (hs : List HiddenLayer) (outD : List ℚ),
    (backHiddens hs outD).1.map (fun h => layerDeltas h.nodes) =
      (List.range hs.length).map fun l =>
        (List.range (hs.getD l default).nodes.length).map fun j =>
          outEdgeSum (hs.getD l default).edges j
              (nextInChain (backHiddens hs outD).1 outD (l + 1)) *
            reluDerivative (((hs.getD l default).nodes.getD j default).value)
  | [], _ => rfl
  | h :: rest, outD => by
      have hcons : backHiddens (h :: rest) outD =
          (({ h with nodes :=
                setHiddenNodeDeltas h.edges (backHiddens rest outD).2 0 h.nodes } :
              HiddenLayer) :: (backHiddens rest outD).1,
            layerDeltas
              (setHiddenNodeDeltas h.edges (backHiddens rest outD).2 0 h.nodes)) := rfl
      rw [hcons]
      simp only [List.map_cons, List.length_cons, List.range_succ_eq_map, List.map_map]
      refine congrArg₂ List.cons ?_ ?_
      · rw [setHiddenNodeDeltas_deltas, backHiddens_snd rest outD]
        refine List.map_congr_left fun j hj => ?_
        simp only [Nat.zero_add, List.getD_cons_zero, nextInChain_cons]
        -- remaining: headDeltas (backHiddens rest outD).1 outD
        --          = nextInChain (backHiddens rest outD).1 outD 0
        cases hb : (backHiddens rest outD).1 <;> simp [headDeltas, nextInChain]
      · have ih := backHiddens_fst rest outD
        rw [ih]
        refine List.map_congr_left fun l hl => ?_
        simp only [Function.comp_apply, List.getD_cons_succ, nextInChain_cons]

/-- Gradient application does not change which layer holds which
deltas: `specNextDeltas` is invariant under `applyGradients`. -/
theorem specNextDeltas_applyGradients (m : NeuralNetwork) (lr : ℚ) (l : ℕ) :
    specNextDeltas (m.applyGradients lr) l = specNextDeltas m l := by
  show nextInChain (applyGradHiddens lr m.hiddenLayers (layerDeltas m.outputLayer.nodes))
      (layerDeltas (updateBiases m.outputLayer.nodes lr)) (l + 1) =
    nextInChain m.hiddenLayers (layerDeltas m.outputLayer.nodes) (l + 1)
  rw [updateBiases_deltas]
  unfold nextInChain
  rw [List.map_drop, List.map_drop, applyGradHiddens_deltas]

theorem nextDeltasOfInput_applyGradients (m : NeuralNetwork) (lr : ℚ) :
    nextDeltasOfInput (m.applyGradients lr) = nextDeltasOfInput m := by
  show headDeltas (applyGradHiddens lr m.hiddenLayers (layerDeltas m.outputLayer.nodes))
      (layerDeltas (updateBiases m.outputLayer.nodes lr)) =
    headDeltas m.hiddenLayers (layerDeltas m.outputLayer.nodes)
  rw [updateBiases_deltas]
  cases m.hiddenLayers with
  | nil => rfl
  | cons hd tl =>
      cases tl with
      | nil => exact updateBiases_deltas _ _
      | cons h2 t2 => exact updateBiases_deltas _ _

/-- C2: after `backpropagate(expected, lr)` (on any network whose
output size matches `expected`), the deltas are exactly: output node
`i` holds `value_i - expected_i` (no sigmoid derivative); each hidden
node holds the sum over its own outgoing edges of
`weight * target.delta` — the target deltas being the FINAL deltas of
the next layer, i.e. the layers were processed strictly from the one
nearest the output backward — multiplied by the leaky-ReLU derivative
at the node's value; each input node holds the same weighted sum with
no activation derivative.  The weights in the sums are the pre-update
weights: deltas are computed before `applyGradients` runs. -/
theorem backpropagate_delta_formulas (net : NeuralNetwork) (expected : List ℚ) (lr : ℚ)
    (hlen : expected.length = net.outputLayer.nodes.length) :
    layerDeltas (net.backpropagate expected lr).outputLayer.nodes =
      (net.outputLayer.nodes.zip expected).map (fun p => p.1.value - p.2) ∧
    (net.backpropagate expected lr).hiddenLayers.map (fun h => layerDeltas h.nodes) =
      (List.range net.hiddenLayers.length).map (fun l =>
        (List.range (net.hiddenLayers.getD l default).nodes.length).map fun j =>
          filterEdgeSum (net.hiddenLayers.getD l default).edges j
              (specNextDeltas (net.backpropagate expected lr) l) *
            reluDerivative (((net.hiddenLayers.getD l default).nodes.getD j default).value)) ∧
    layerDeltas (net.backpropagate expected lr).inputLayer.nodes =
      (List.range net.inputLayer.nodes.length).map fun j =>
        filterEdgeSum net.inputLayer.edges j
          (nextDeltasOfInput (net.backpropagate expected lr)) := by
  have hbp : net.backpropagate expected lr =
      NeuralNetwork.applyGradients
        ⟨⟨setInputNodeDeltas net.inputLayer.edges
            (backHiddens net.hiddenLayers
              (layerDeltas (setOutputDeltas net.outputLayer.nodes expected))).2 0
            net.inputLayer.nodes,
          net.inputLayer.edges⟩,
          (backHiddens net.hiddenLayers
            (layerDeltas (setOutputDeltas net.outputLayer.nodes expected))).1,
          ⟨setOutputDeltas net.outputLayer.nodes expected⟩⟩ lr := rfl
  rw [hbp]
  refine ⟨?_, ?_, ?_⟩
  · show layerDeltas (updateBiases (setOutputDeltas net.outputLayer.nodes expected) lr) = _
    rw [updateBiases_deltas]
    exact setOutputDeltas_deltas _ _ hlen
  · show (applyGradHiddens lr
        (backHiddens net.hiddenLayers
          (layerDeltas (setOutputDeltas net.outputLayer.nodes expected))).1
        (layerDeltas (setOutputDeltas net.outputLayer.nodes expected))).map
          (fun h => layerDeltas h.nodes) = _
    rw [applyGradHiddens_deltas, backHiddens_fst]
    refine List.map_congr_left fun l hl => ?_
    refine List.map_congr_left fun j hj => ?_
    rw [outEdgeSum_eq_filter, specNextDeltas_applyGradients]
    rfl
  · show layerDeltas (updateBiases (setInputNodeDeltas net.inputLayer.edges
        (backHiddens net.hiddenLayers
          (layerDeltas (setOutputDeltas net.outputLayer.nodes expected))).2 0
        net.inputLayer.nodes) lr) = _
    rw [updateBiases_deltas, setInputNodeDeltas_deltas]
    refine List.map_congr_left fun j hj => ?_
    rw [Nat.zero_add, outEdgeSum_eq_filter, nextDeltasOfInput_applyGradients,
      backHiddens_snd]
    rfl

/-- The concrete 1-1-1 network of the C2 witness (post-forward values
1, 1/2, 3/4 and one edge per connection). -/
def net2w : NeuralNetwork :=
  ⟨⟨[⟨1, 0, 0⟩], [⟨0, 0, 1/2⟩]⟩, [⟨[⟨1/2, 0, 0⟩], [⟨0, 0, 1/3⟩]⟩], ⟨[⟨3/4, 0, 0⟩]⟩⟩

/-- C2 witness: the delta formulas instantiated on the concrete 1-1-1
network with `expected = [1]` and learning rate `1/100`. -/
theorem backpropagate_delta_formulas_witness :
    layerDeltas (net2w.backpropagate [1] (1/100)).outputLayer.nodes =
      (net2w.outputLayer.nodes.zip [1]).map (fun p => p.1.value - p.2) ∧
    (net2w.backpropagate [1] (1/100)).hiddenLayers.map (fun h => layerDeltas h.nodes) =
      (List.range net2w.hiddenLayers.length).map (fun l =>
        (List.range (net2w.hiddenLayers.getD l default).nodes.length).map fun j =>
          filterEdgeSum (net2w.hiddenLayers.getD l default).edges j
              (specNextDeltas (net2w.backpropagate [1] (1/100)) l) *
            reluDerivative (((net2w.hiddenLayers.getD l default).nodes.getD j default).value)) ∧
    layerDeltas (net2w.backpropagate [1] (1/100)).inputLayer.nodes =
      (List.range net2w.inputLayer.nodes.length).map fun j =>
        filterEdgeSum net2w.inputLayer.edges j
          (nextDeltasOfInput (net2w.backpropagate [1] (1/100))) :=
  backpropagate_delta_formulas net2w [1] (1/100) rfl

end NNet
